import Mathlib

/-!
Verification of the cryptopulse data pipeline (crypto_api.py, data_analysis.py).

The Python source works over JSON values, lists of dicts, and pandas
DataFrames.  We embed:
  * JSON scalar values as `JVal` (numbers as exact rationals);
  * an upstream API entry as `UpEntry` (each key optional, `none` = absent);
  * the cleaned record built by `fetch_top_coins` as `CoinRecord`;
  * the retry loop of `fetch_top_coins` as a function of the list of
    attempt outcomes (one per loop iteration);
  * a stored JSON object as `JRecord` and a loaded DataFrame row as `Row`
    (numeric cells are `Option ℚ`, `none` standing for the NaN sentinel);
  * the aggregation functions of data_analysis.py over `Table = List Row`.
-/

namespace CryptoPulse

/-- A JSON scalar value as it appears in an API response or snapshot file. -/
inductive JVal where
  | jnull
  | jbool (b : Bool)
  | jnum (q : ℚ)
  | jstr (s : String)
deriving DecidableEq

/-- Python truthiness of a JSON value (`None`, `0`, `""`, `False` are falsy). -/
def truthy : JVal → Bool
  | .jnull => false
  | .jbool b => b
  | .jnum q => decide (q ≠ 0)
  | .jstr s => decide (s ≠ "")

/-- Python `a or b` where `a` is `coin.get(key)` (`none` = key absent, hence
`None`, hence falsy). -/
def pyOr (a : Option JVal) (b : JVal) : JVal :=
  match a with
  | none => b
  | some v => if truthy v then v else b

/-- One entry of the upstream `/coins/markets` JSON response.  A field is
`none` when the key is absent from the object.  `symbol` is kept as a string
because the code calls `.upper()` on it. -/
structure UpEntry where
  name : Option JVal := none
  symbol : Option String := none
  current_price : Option JVal := none
  price_change_percentage_24h : Option JVal := none
  price_change_percentage_24h_in_currency : Option JVal := none
  total_volume : Option JVal := none
  market_cap : Option JVal := none
  image : Option JVal := none
deriving DecidableEq

/-- The cleaned record built inside `fetch_top_coins` (crypto_api.py lines
48-60).  `coin.get(k)` with no default yields Python `None` (= `jnull` once
stored); `coin.get(k, 0)` defaults to `0`. -/
structure CoinRecord where
  name : JVal
  symbol : String
  current_price : JVal
  price_change_percentage_24h : JVal
  total_volume : JVal
  market_cap : JVal
  image : JVal
deriving DecidableEq

/-- Python `str.upper()`: upper-case every character. -/
def pyUpper (s : String) : String :=
  ⟨s.data.map Char.toUpper⟩

/-- The dict comprehension body of `fetch_top_coins`:
`price_change_percentage_24h` is
`coin.get("price_change_percentage_24h") or
 coin.get("price_change_percentage_24h_in_currency", 0)`. -/
def clean_coin (c : UpEntry) : CoinRecord where
  name := c.name.getD .jnull
  symbol := pyUpper (c.symbol.getD "")
  current_price := c.current_price.getD (.jnum 0)
  price_change_percentage_24h :=
    pyOr c.price_change_percentage_24h
      (c.price_change_percentage_24h_in_currency.getD (.jnum 0))
  total_volume := c.total_volume.getD (.jnum 0)
  market_cap := c.market_cap.getD (.jnum 0)
  image := c.image.getD .jnull

/-- Outcome of one iteration of the retry loop: either the request raises a
`RequestException` (network error / non-2xx / timeout) or it succeeds with a
parsed JSON body. -/
inductive AttemptResult where
  | fail
  | ok (data : List UpEntry)
deriving DecidableEq

/-- The body of the `for attempt in range(1, retries + 1)` loop of
`fetch_top_coins` (crypto_api.py lines 39-72), as a function of the list of
attempt outcomes.  Success returns the cleaned data; failure on the last
attempt returns `[]`; failure earlier sleeps and continues; an empty list of
iterations means the loop body never ran, so the Python function falls off
the end and returns `None`. -/
def fetchAttempts : List AttemptResult → Option (List CoinRecord)
  | [] => none
  | .ok data :: _ => some (data.map clean_coin)
  | [.fail] => some []
  | .fail :: a :: rest => fetchAttempts (a :: rest)

/-- `fetch_top_coins`, abstracted over the outcome of each attempt.
`retries` is a Python int, so it may be negative; `range(1, retries + 1)`
then has `max 0 retries = retries.toNat` iterations.  The `vs_currency`,
`limit` and `delay` parameters only shape the request and the sleep and do
not affect the modelled result. -/
def fetch_top_coins (retries : Int) (attempts : Nat → AttemptResult) :
    Option (List CoinRecord) :=
  fetchAttempts ((List.range retries.toNat).map attempts)

/-! ### Lemmas about the fetcher -/

theorem fetchAttempts_all_fail :
    ∀ l : List AttemptResult, l ≠ [] → (∀ a ∈ l, a = AttemptResult.fail) →
      fetchAttempts l = some []
  | [], h, _ => absurd rfl h
  | [a], _, hf => by
      have ha := hf a (by simp)
      subst ha; rfl
  | a :: b :: t, _, hf => by
      have ha := hf a (by simp)
      subst ha
      have ih := fetchAttempts_all_fail (b :: t) (by simp)
        (fun x hx => hf x (List.mem_cons_of_mem _ hx))
      simpa [fetchAttempts] using ih

/-- C1: if every attempt fails with a transient error and at least one
attempt is configured (`retries ≥ 1`), `fetch_top_coins` returns the empty
snapshot `[]`, not an error and not `None`. -/
theorem fetch_empty_after_all_failures (retries : Int)
    (attempts : Nat → AttemptResult) (hr : 1 ≤ retries)
    (hf : ∀ k, k < retries.toNat → attempts k = AttemptResult.fail) :
    fetch_top_coins retries attempts = some [] := by
  apply fetchAttempts_all_fail
  · have h1 : 1 ≤ retries.toNat := by
      have := Int.toNat_le_toNat hr
      simpa using this
    simp [List.range_eq_nil]
    omega
  · intro a ha
    obtain ⟨k, hk, rfl⟩ := List.mem_map.mp ha
    exact hf k (List.mem_range.mp hk)

/-- Witness for C1 at `retries = 3` with every attempt failing. -/
theorem fetch_empty_after_all_failures_witness :
    fetch_top_coins 3 (fun _ => AttemptResult.fail) = some [] :=
  fetch_empty_after_all_failures 3 _ (by decide) (fun _ _ => rfl)

/-- C9: with `retries ≤ 0` the loop `for attempt in range(1, retries + 1)`
runs zero times, so the function returns `None`, not the empty list. -/
theorem fetch_none_without_retries (retries : Int)
    (attempts : Nat → AttemptResult) (h : retries ≤ 0) :
    fetch_top_coins retries attempts = none ∧
      fetch_top_coins retries attempts ≠ some [] := by
  have h0 : retries.toNat = 0 := Int.toNat_eq_zero.mpr h
  constructor
  · simp [fetch_top_coins, h0, fetchAttempts]
  · simp [fetch_top_coins, h0, fetchAttempts]

/-- Witness for C9 at `retries = 0`. -/
theorem fetch_none_without_retries_witness :
    fetch_top_coins 0 (fun _ => AttemptResult.fail) = none ∧
      fetch_top_coins 0 (fun _ => AttemptResult.fail) ≠ some [] :=
  fetch_none_without_retries 0 _ (by decide)

/-! ### C2: field mapping of the cleaned record -/

/-- Upstream entry whose `price_change_percentage_24h` key is absent while
`price_change_percentage_24h_in_currency` is present with value 5. -/
def entryNoChange : UpEntry :=
  { name := some (.jstr "Bitcoin"), symbol := some "btc",
    current_price := some (.jnum 43000),
    price_change_percentage_24h := none,
    price_change_percentage_24h_in_currency := some (.jnum 5) }

/-- C2 counterexample: the claim says `price_change_percentage_24h` falls
back to 0 when absent upstream, but on `entryNoChange` (key absent,
`..._in_currency` = 5) the code produces 5, because the Python `or`
falls back to the `_in_currency` field, not to 0. -/
theorem clean_coin_zero_default_counterexample :
    entryNoChange.price_change_percentage_24h = none ∧
      (clean_coin entryNoChange).price_change_percentage_24h = JVal.jnum 5 ∧
      JVal.jnum (5 : ℚ) ≠ JVal.jnum 0 := by
  refine ⟨rfl, rfl, by decide⟩

/-- C2 amended: `price_change_percentage_24h` equals the upstream value when
it is present and truthy (non-null, nonzero); when it is absent or falsy the
code falls back to `price_change_percentage_24h_in_currency` when present,
and to 0 only when that key is also absent.  The other numeric fields equal
the upstream value when present and default to 0 when absent, and `symbol`
is the upper-cased upstream symbol. -/
theorem clean_coin_spec (c : UpEntry) :
    (∀ v, c.price_change_percentage_24h = some v → truthy v = true →
      (clean_coin c).price_change_percentage_24h = v) ∧
    ((c.price_change_percentage_24h = none ∨
        ∃ v, c.price_change_percentage_24h = some v ∧ truthy v = false) →
      (∀ w, c.price_change_percentage_24h_in_currency = some w →
        (clean_coin c).price_change_percentage_24h = w) ∧
      (c.price_change_percentage_24h_in_currency = none →
        (clean_coin c).price_change_percentage_24h = JVal.jnum 0)) ∧
    (∀ v, c.current_price = some v → (clean_coin c).current_price = v) ∧
    (c.current_price = none → (clean_coin c).current_price = JVal.jnum 0) ∧
    (∀ v, c.total_volume = some v → (clean_coin c).total_volume = v) ∧
    (c.total_volume = none → (clean_coin c).total_volume = JVal.jnum 0) ∧
    (∀ v, c.market_cap = some v → (clean_coin c).market_cap = v) ∧
    (c.market_cap = none → (clean_coin c).market_cap = JVal.jnum 0) ∧
    (∀ s, c.symbol = some s → (clean_coin c).symbol = pyUpper s) := by
  refine ⟨?_, ?_, ?_, ?_, ?_, ?_, ?_, ?_, ?_⟩
  · intro v hv htr
    simp [clean_coin, pyOr, hv, htr]
  · rintro (h | ⟨v, hv, hfalse⟩)
    · constructor
      · intro w hw; simp [clean_coin, pyOr, h, hw]
      · intro hw; simp [clean_coin, pyOr, h, hw]
    · constructor
      · intro w hw; simp [clean_coin, pyOr, hv, hfalse, hw]
      · intro hw; simp [clean_coin, pyOr, hv, hfalse, hw]
  · intro v hv; simp [clean_coin, hv]
  · intro h; simp [clean_coin, h]
  · intro v hv; simp [clean_coin, hv]
  · intro h; simp [clean_coin, h]
  · intro v hv; simp [clean_coin, hv]
  · intro h; simp [clean_coin, h]
  · intro s hs; simp [clean_coin, hs]

/-- Upstream entry whose 24h change is present but zero (falsy) while the
in-currency variant is 7: used to exercise the fallback branches of the
amended C2. -/
def entryZeroChange : UpEntry :=
  { symbol := some "eth",
    price_change_percentage_24h := some (.jnum 0),
    price_change_percentage_24h_in_currency := some (.jnum 7) }

/-- Witness for the amended C2: the fallback and default branches evaluated
on concrete entries. -/
theorem clean_coin_spec_witness :
    (clean_coin entryZeroChange).price_change_percentage_24h = JVal.jnum 7 ∧
      (clean_coin entryZeroChange).symbol = "ETH" ∧
      (clean_coin entryZeroChange).current_price = JVal.jnum 0 ∧
      (clean_coin entryNoChange).current_price = JVal.jnum 43000 := by
  obtain ⟨-, h2, -, h4, -, -, -, -, h9⟩ := clean_coin_spec entryZeroChange
  obtain ⟨-, -, h3, -, -, -, -, -, -⟩ := clean_coin_spec entryNoChange
  refine ⟨?_, ?_, ?_, ?_⟩
  · exact (h2 (Or.inr ⟨.jnum 0, rfl, by decide⟩)).1 (.jnum 7) rfl
  · exact (h9 "eth" rfl).trans (by decide)
  · exact h4 rfl
  · exact h3 (.jnum 43000) rfl

/-! ### Store: `save_latest_data` (crypto_api.py) and `load_data`
(data_analysis.py) -/

/-- One object of the snapshot JSON file.  A field is `none` when the key is
absent from the object.  `pd.DataFrame(data)` makes a column for every key
that appears in at least one object and fills the other cells with NaN. -/
structure JRecord where
  name : Option JVal := none
  symbol : Option JVal := none
  current_price : Option JVal := none
  price_change_percentage_24h : Option JVal := none
  total_volume : Option JVal := none
  market_cap : Option JVal := none
  image : Option JVal := none
deriving DecidableEq

/-- The JSON object serialized for one cleaned record: every key of a
`CoinRecord` is present, and a Python `None` value is serialized as JSON
`null` (already `jnull` here). -/
def saveRecord (c : CoinRecord) : JRecord :=
  { name := some c.name, symbol := some (.jstr c.symbol),
    current_price := some c.current_price,
    price_change_percentage_24h := some c.price_change_percentage_24h,
    total_volume := some c.total_volume, market_cap := some c.market_cap,
    image := some c.image }

/-- `save_latest_data`: `json.dump` of the list of cleaned dicts.  The
result is the content of the overwritten snapshot file. -/
def save_latest_data (snap : List CoinRecord) : List JRecord :=
  snap.map saveRecord

/-- Split a character list on a separator (like `str.split(sep)`). -/
def splitOnChar (sep : Char) : List Char → List (List Char)
  | [] => [[]]
  | c :: rest =>
      let r := splitOnChar sep rest
      if c = sep then [] :: r
      else
        match r with
        | [] => [[c]]
        | h :: t => (c :: h) :: t

/-- Value of a digit string (callers check non-emptiness); `none` when a
non-digit occurs. -/
def digitsVal (l : List Char) : Option Nat :=
  if l.all Char.isDigit then
    some (l.foldl (fun n c => 10 * n + (c.toNat - 48)) 0)
  else none

/-- Unsigned decimal literal `digits`, `digits.digits`, `.digits` or
`digits.`, as accepted by `pd.to_numeric`. -/
def parseUnsignedDec (l : List Char) : Option ℚ :=
  match splitOnChar '.' l with
  | [i] => if i = [] then none else (digitsVal i).map (fun n => (n : ℚ))
  | [i, f] =>
      if i = [] ∧ f = [] then none
      else
        match digitsVal i, digitsVal f with
        | some a, some b => some ((a : ℚ) + (b : ℚ) / (10 : ℚ) ^ f.length)
        | _, _ => none
  | _ => none

/-- Optional leading sign. -/
def parseSigned (k : List Char → Option ℚ) : List Char → Option ℚ
  | '-' :: rest => (k rest).map Neg.neg
  | '+' :: rest => k rest
  | l => k l

/-- Signed decimal exponent. -/
def parseExponent : List Char → Option Int
  | '-' :: rest =>
      if rest = [] then none else (digitsVal rest).map (fun n => -(n : Int))
  | '+' :: rest =>
      if rest = [] then none else (digitsVal rest).map (fun n => (n : Int))
  | l => if l = [] then none else (digitsVal l).map (fun n => (n : Int))

/-- Model of the string branch of `pd.to_numeric(•, errors="coerce")`:
parse an optionally signed decimal literal with optional exponent,
surrounding whitespace ignored; `none` (NaN) when unparseable. -/
def parseNum (s : String) : Option ℚ :=
  let t := ((s.data.dropWhile Char.isWhitespace).reverse.dropWhile
    Char.isWhitespace).reverse
  match splitOnChar 'e' (t.map Char.toLower) with
  | [m] => parseSigned parseUnsignedDec m
  | [m, ex] =>
      match parseSigned parseUnsignedDec m, parseExponent ex with
      | some q, some z => some (q * (10 : ℚ) ^ z)
      | _, _ => none
  | _ => none

/-- One cell under `pd.to_numeric(•, errors="coerce")`: a missing cell (NaN
in the frame) and JSON `null` stay NaN, numbers pass through, booleans map
to 1/0, strings are parsed and become NaN when unparseable.  The result
`none` is the NaN sentinel. -/
def coerceNum : Option JVal → Option ℚ
  | none => none
  | some .jnull => none
  | some (.jbool b) => some (if b then 1 else 0)
  | some (.jnum q) => some q
  | some (.jstr s) => parseNum s

/-- A row of the DataFrame produced by `load_data`: the four numeric columns
hold floats (`none` = NaN), the other columns keep their cell values
(`none` = the cell was missing and holds NaN). -/
structure Row where
  name : Option JVal := none
  symbol : Option JVal := none
  current_price : Option ℚ := none
  price_change_percentage_24h : Option ℚ := none
  total_volume : Option ℚ := none
  market_cap : Option ℚ := none
  image : Option JVal := none
deriving DecidableEq

/-- The row produced for one stored object once the four numeric columns
have been coerced. -/
def loadRow (r : JRecord) : Row :=
  { name := r.name, symbol := r.symbol,
    current_price := coerceNum r.current_price,
    price_change_percentage_24h := coerceNum r.price_change_percentage_24h,
    total_volume := coerceNum r.total_volume,
    market_cap := coerceNum r.market_cap,
    image := r.image }

/-- Whether the DataFrame built from `data` has the column given by `f`,
i.e. whether some object has the key. -/
def hasCol (data : List JRecord) (f : JRecord → Option JVal) : Bool :=
  data.any fun r => (f r).isSome

/-- Whether all four numeric columns indexed by the coercion loop of
`load_data` exist in the DataFrame. -/
def hasNumCols (data : List JRecord) : Bool :=
  hasCol data (·.current_price) && hasCol data (·.price_change_percentage_24h)
    && hasCol data (·.market_cap) && hasCol data (·.total_volume)

/-- `load_data` (data_analysis.py lines 12-36).  `none` input = the file
does not exist, giving an empty DataFrame.  Otherwise the JSON array is read
into a DataFrame and each of the four numeric columns is coerced with
`pd.to_numeric(df[col], errors="coerce")`; reading `df[col]` raises
`KeyError` when the column is absent (in particular for an empty array). -/
def load_data (file : Option (List JRecord)) : Except String (List Row) :=
  match file with
  | none => .ok []
  | some data =>
      if hasNumCols data then .ok (data.map loadRow)
      else .error "KeyError"

/-! ### C10: load raises on an empty array or a missing numeric column -/

/-- One of the four numeric columns is absent from every stored object. -/
def missingNumCol (data : List JRecord) : Prop :=
  (∀ r ∈ data, r.current_price = none) ∨
    (∀ r ∈ data, r.price_change_percentage_24h = none) ∨
    (∀ r ∈ data, r.market_cap = none) ∨
    (∀ r ∈ data, r.total_volume = none)

theorem hasCol_eq_false_of_all_none {data : List JRecord}
    {f : JRecord → Option JVal} (h : ∀ r ∈ data, f r = none) :
    hasCol data f = false := by
  simp only [hasCol, List.any_eq_false]
  intro r hr
  simp [h r hr]

/-- C10: for an existing file parsing to an empty JSON array, or to records
that all lack one of the four numeric columns, `load_data` raises (the
coercion loop indexes a missing column) instead of returning a snapshot. -/
theorem load_data_error_on_missing_column (data : List JRecord)
    (h : data = [] ∨ missingNumCol data) :
    ∃ msg, load_data (some data) = .error msg := by
  refine ⟨"KeyError", ?_⟩
  have hfalse : hasNumCols data = false := by
    rcases h with rfl | h
    · rfl
    · rcases h with h | h | h | h <;>
        simp [hasNumCols, hasCol_eq_false_of_all_none h]
  simp [load_data, hfalse]

/-- Witness for C10 at the empty JSON array. -/
theorem load_data_error_on_missing_column_witness :
    (([] : List JRecord) = [] ∨ missingNumCol []) ∧
      ∃ msg, load_data (some ([] : List JRecord)) = .error msg :=
  ⟨Or.inl rfl, load_data_error_on_missing_column [] (Or.inl rfl)⟩

/-! ### C3: save/load round trip -/

/-- A `CoinRecord` whose four numeric fields are JSON numbers (the shape the
spec's data model prescribes for a snapshot record). -/
def numericRecord (c : CoinRecord) : Prop :=
  (∃ q, c.current_price = JVal.jnum q) ∧
    (∃ q, c.price_change_percentage_24h = JVal.jnum q) ∧
    (∃ q, c.total_volume = JVal.jnum q) ∧
    (∃ q, c.market_cap = JVal.jnum q)

/-- C3 counterexample: saving the empty snapshot writes `[]`; loading that
file back builds a DataFrame with no columns, so the numeric-coercion loop
raises `KeyError` — the load fails rather than reproducing the empty
snapshot. -/
theorem save_load_roundtrip_counterexample :
    load_data (some (save_latest_data ([] : List CoinRecord))) =
      Except.error "KeyError" := rfl

/-- C3 amended: for every nonempty snapshot whose records carry JSON numbers
in the four numeric fields, saving and loading reproduces the records in
order: the load succeeds, the row count matches and every field of every
record survives, numeric fields exactly. -/
theorem save_load_roundtrip (snap : List CoinRecord) (hne : snap ≠ [])
    (hnum : ∀ c ∈ snap, numericRecord c) :
    ∃ rows, load_data (some (save_latest_data snap)) = Except.ok rows ∧
      rows.length = snap.length ∧
      ∀ (k : Nat) (hk : k < snap.length) (hk2 : k < rows.length),
        (rows.get ⟨k, hk2⟩).name = some (snap.get ⟨k, hk⟩).name ∧
        (rows.get ⟨k, hk2⟩).symbol =
          some (JVal.jstr (snap.get ⟨k, hk⟩).symbol) ∧
        (rows.get ⟨k, hk2⟩).image = some (snap.get ⟨k, hk⟩).image ∧
        (∃ q, (snap.get ⟨k, hk⟩).current_price = JVal.jnum q ∧
          (rows.get ⟨k, hk2⟩).current_price = some q) ∧
        (∃ q, (snap.get ⟨k, hk⟩).price_change_percentage_24h = JVal.jnum q ∧
          (rows.get ⟨k, hk2⟩).price_change_percentage_24h = some q) ∧
        (∃ q, (snap.get ⟨k, hk⟩).total_volume = JVal.jnum q ∧
          (rows.get ⟨k, hk2⟩).total_volume = some q) ∧
        (∃ q, (snap.get ⟨k, hk⟩).market_cap = JVal.jnum q ∧
          (rows.get ⟨k, hk2⟩).market_cap = some q) := by
  have hcols : hasNumCols (save_latest_data snap) = true := by
    obtain ⟨c, t, rfl⟩ := List.exists_cons_of_ne_nil hne
    simp [hasNumCols, hasCol, save_latest_data, saveRecord]
  refine ⟨(save_latest_data snap).map loadRow, by simp [load_data, hcols], ?_, ?_⟩
  · simp [save_latest_data]
  · intro k hk hk2
    have hget : ((save_latest_data snap).map loadRow).get ⟨k, hk2⟩ =
        loadRow (saveRecord (snap.get ⟨k, hk⟩)) := by
      simp [save_latest_data]
    obtain ⟨⟨q1, hq1⟩, ⟨q2, hq2⟩, ⟨q3, hq3⟩, ⟨q4, hq4⟩⟩ :=
      hnum (snap.get ⟨k, hk⟩) (snap.get_mem _ _)
    simp only [List.get_eq_getElem] at hq1 hq2 hq3 hq4
    refine ⟨?_, ?_, ?_, ⟨q1, hq1, ?_⟩, ⟨q2, hq2, ?_⟩, ⟨q3, hq3, ?_⟩, ⟨q4, hq4, ?_⟩⟩ <;>
      simp [hget, loadRow, saveRecord, save_latest_data, hq1, hq2, hq3, hq4,
        coerceNum]

/-- A concrete one-record snapshot for the round-trip witness. -/
def btcRecord : CoinRecord :=
  { name := .jstr "Bitcoin", symbol := "BTC", current_price := .jnum 43000,
    price_change_percentage_24h := .jnum (-3/2), total_volume := .jnum 100,
    market_cap := .jnum 900000, image := .jnull }

/-- Witness for the amended C3 on a one-record snapshot. -/
theorem save_load_roundtrip_witness :
    ∃ rows, load_data (some (save_latest_data [btcRecord])) = Except.ok rows ∧
      rows.length = [btcRecord].length ∧
      ∀ (k : Nat) (hk : k < [btcRecord].length) (hk2 : k < rows.length),
        (rows.get ⟨k, hk2⟩).name = some ([btcRecord].get ⟨k, hk⟩).name ∧
        (rows.get ⟨k, hk2⟩).symbol =
          some (JVal.jstr ([btcRecord].get ⟨k, hk⟩).symbol) ∧
        (rows.get ⟨k, hk2⟩).image = some ([btcRecord].get ⟨k, hk⟩).image ∧
        (∃ q, ([btcRecord].get ⟨k, hk⟩).current_price = JVal.jnum q ∧
          (rows.get ⟨k, hk2⟩).current_price = some q) ∧
        (∃ q, ([btcRecord].get ⟨k, hk⟩).price_change_percentage_24h = JVal.jnum q ∧
          (rows.get ⟨k, hk2⟩).price_change_percentage_24h = some q) ∧
        (∃ q, ([btcRecord].get ⟨k, hk⟩).total_volume = JVal.jnum q ∧
          (rows.get ⟨k, hk2⟩).total_volume = some q) ∧
        (∃ q, ([btcRecord].get ⟨k, hk⟩).market_cap = JVal.jnum q ∧
          (rows.get ⟨k, hk2⟩).market_cap = some q) :=
  save_load_roundtrip [btcRecord] (by simp)
    (by intro c hc; simp at hc; subst hc
        exact ⟨⟨_, rfl⟩, ⟨_, rfl⟩, ⟨_, rfl⟩, ⟨_, rfl⟩⟩)

/-! ### C6: load on a missing file, and numeric coercion -/

/-- A hand-made snapshot file whose single record has only non-numeric
keys. -/
def nameOnlyFile : List JRecord :=
  [{ name := some (.jstr "Bitcoin"), symbol := some (.jstr "BTC") }]

/-- C6 counterexample: an existing snapshot file on which the load fails:
all records lack the numeric columns, so the coercion loop raises `KeyError`
instead of producing NaN sentinels. -/
theorem load_data_raises_counterexample :
    load_data (some nameOnlyFile) = Except.error "KeyError" := rfl

/-- C6 amended: a missing file loads as the empty snapshot, not an error;
and for every existing file whose array is nonempty with each numeric column
present in at least one record, the load succeeds and coerces every numeric
cell to a float: numbers pass through, `null`, missing cells and unparseable
strings become the NaN sentinel (`none`) rather than raising. -/
theorem load_data_spec :
    load_data none = Except.ok [] ∧
    (∀ q, coerceNum (some (.jnum q)) = some q) ∧
    (coerceNum (some .jnull) = none ∧ coerceNum none = none) ∧
    (∀ s, parseNum s = none → coerceNum (some (.jstr s)) = none) ∧
    (∀ data, hasNumCols data = true →
      ∃ rows, load_data (some data) = Except.ok rows ∧
        rows.length = data.length ∧
        ∀ (k : Nat) (hk : k < data.length) (hk2 : k < rows.length),
          (rows.get ⟨k, hk2⟩).current_price =
            coerceNum ((data.get ⟨k, hk⟩).current_price) ∧
          (rows.get ⟨k, hk2⟩).price_change_percentage_24h =
            coerceNum ((data.get ⟨k, hk⟩).price_change_percentage_24h) ∧
          (rows.get ⟨k, hk2⟩).total_volume =
            coerceNum ((data.get ⟨k, hk⟩).total_volume) ∧
          (rows.get ⟨k, hk2⟩).market_cap =
            coerceNum ((data.get ⟨k, hk⟩).market_cap)) := by
  refine ⟨rfl, fun q => rfl, ⟨rfl, rfl⟩, fun s hs => by simp [coerceNum, hs], ?_⟩
  intro data hcols
  refine ⟨data.map loadRow, by simp [load_data, hcols], by simp, ?_⟩
  intro k hk hk2
  have hget : (data.map loadRow).get ⟨k, hk2⟩ = loadRow (data.get ⟨k, hk⟩) := by
    simp
  simp [hget, loadRow]

/-- A stored record with a parseable string price, an unparseable string
volume, a null market cap and a numeric change. -/
def messyRecord : JRecord :=
  { current_price := some (.jstr "1.5"),
    price_change_percentage_24h := some (.jnum 2),
    total_volume := some (.jstr "abc"), market_cap := some .jnull }

/-- Witness for the amended C6: the messy one-record file loads without
error; its cells coerce to `1.5`, `2`, NaN and NaN. -/
theorem load_data_spec_witness :
    ∃ rows, load_data (some [messyRecord]) = Except.ok rows ∧
      rows.length = 1 ∧
      ∀ (hk2 : 0 < rows.length),
        (rows.get ⟨0, hk2⟩).current_price = some (3/2 : ℚ) ∧
        (rows.get ⟨0, hk2⟩).price_change_percentage_24h = some (2 : ℚ) ∧
        (rows.get ⟨0, hk2⟩).total_volume = none ∧
        (rows.get ⟨0, hk2⟩).market_cap = none := by
  obtain ⟨-, -, -, -, h5⟩ := load_data_spec
  obtain ⟨rows, hok, hlen, hcells⟩ := h5 [messyRecord] (by rfl)
  refine ⟨rows, hok, hlen, ?_⟩
  intro hk2
  obtain ⟨h1, h2, h3, h4⟩ := hcells 0 (by simp) hk2
  refine ⟨?_, ?_, ?_, ?_⟩
  · rw [h1]; with_unfolding_all rfl
  · rw [h2]; with_unfolding_all rfl
  · rw [h3]; with_unfolding_all rfl
  · rw [h4]; with_unfolding_all rfl

/-! ### Aggregator (data_analysis.py) -/

/-- The in-memory table handed to the analysis functions. -/
abbrev Table := List Row

/-- Round half to even, as Python's `round`. -/
def roundHalfEven (q : ℚ) : ℤ :=
  let lo := ⌊q⌋
  let f := q - (lo : ℚ)
  if f < 1 / 2 then lo
  else if 1 / 2 < f then lo + 1
  else if 2 ∣ lo then lo else lo + 1

/-- Python `round(x, 2)`. -/
def round2 (q : ℚ) : ℚ :=
  (roundHalfEven (100 * q) : ℚ) / 100

/-- Mean of a column as pandas computes it: NaN cells are skipped (they are
already gone from `l`), and the mean of an empty column is NaN (`none`). -/
def colMean (l : List ℚ) : Option ℚ :=
  if l = [] then none else some (l.sum / l.length)

/-- The summary dict of `compute_summary`.  The two means are NaN when every
cell of their column is NaN (`round` keeps NaN); the sums skip NaN and are 0
for an all-NaN column, as `Series.sum` is. -/
structure Summary where
  total_coins : Nat
  average_price : Option ℚ
  average_change_24h : Option ℚ
  total_market_cap : ℚ
  total_volume : ℚ
deriving DecidableEq

/-- `compute_summary` (data_analysis.py lines 40-63): `none` is the empty
dict returned for an empty DataFrame. -/
def compute_summary (df : Table) : Option Summary :=
  if df = [] then none
  else some
    { total_coins := df.length
      average_price := (colMean (df.filterMap (·.current_price))).map round2
      average_change_24h :=
        (colMean (df.filterMap (·.price_change_percentage_24h))).map round2
      total_market_cap := round2 (df.filterMap (·.market_cap)).sum
      total_volume := round2 (df.filterMap (·.total_volume)).sum }

/-- C5: for an empty snapshot `compute_summary` returns the empty dict, and
for every nonempty snapshot it returns a summary whose `total_coins` equals
the number of records. -/
theorem compute_summary_total_coins (df : Table) :
    (df = [] → compute_summary df = none) ∧
      (df ≠ [] → ∃ s, compute_summary df = some s ∧
        s.total_coins = df.length) := by
  constructor
  · intro h; simp [compute_summary, h]
  · intro h
    rw [compute_summary, if_neg h]
    exact ⟨_, rfl, rfl⟩

/-- Witness for C5 on the empty table and on a one-row table. -/
theorem compute_summary_total_coins_witness :
    compute_summary ([] : Table) = none ∧
      ∃ s, compute_summary [({} : Row)] = some s ∧ s.total_coins = 1 :=
  ⟨(compute_summary_total_coins []).1 rfl,
    (compute_summary_total_coins [{}]).2 (by simp)⟩

/-! ### `top_movers` -/

/-- A row of the `[["name", "symbol", "price_change_percentage_24h"]]`
projection returned by `top_movers`; `change` is `none` for a NaN cell.
NaN-change rows do appear in the output: `nlargest`/`nsmallest` keep them
as trailing filler (see `nlargestMovers`). -/
structure Mover where
  name : Option JVal
  symbol : Option JVal
  change : Option ℚ
deriving DecidableEq

/-- The three-column projection of one table row. -/
def moverOfRow (r : Row) : Mover :=
  ⟨r.name, r.symbol, r.price_change_percentage_24h⟩

/-- `dropped = self.obj.dropna()` of pandas `SelectN.compute`: the rows
whose change is non-NaN, in input order. -/
def moverDropped (df : Table) : List Mover :=
  (df.map moverOfRow).filter fun m => m.change.isSome

/-- `nan_index = self.obj.drop(dropped.index)`: the NaN-change rows, in
input order. -/
def moverNanIndex (df : Table) : List Mover :=
  (df.map moverOfRow).filter fun m => !m.change.isSome

/-- Sort key of a mover.  The 0 default is never reached when sorting
`moverDropped` (every change there is `some`); it only makes the relation
total. -/
def chKey (m : Mover) : ℚ := m.change.getD 0

/-- Comes-before relation of `nlargest` output: change non-increasing. -/
def moverDesc (a b : Mover) : Prop := chKey b ≤ chKey a

/-- Comes-before relation of `nsmallest` output: change non-decreasing. -/
def moverAsc (a b : Mover) : Prop := chKey a ≤ chKey b

instance : DecidableRel moverDesc :=
  fun a b => inferInstanceAs (Decidable (chKey b ≤ chKey a))

instance : DecidableRel moverAsc :=
  fun a b => inferInstanceAs (Decidable (chKey a ≤ chKey b))

instance : IsTotal Mover moverDesc := ⟨fun a b => le_total (chKey b) (chKey a)⟩

instance : IsTotal Mover moverAsc := ⟨fun a b => le_total (chKey a) (chKey b)⟩

instance : IsTrans Mover moverDesc := ⟨fun _ _ _ hab hbc => hbc.trans hab⟩

instance : IsTrans Mover moverAsc := ⟨fun _ _ _ hab hbc => hab.trans hbc⟩

/-- `df.nlargest(n, change-col)` with the three-column projection.  Both
pandas paths return the first `n` of: the non-NaN rows sorted by change
descending, followed by the NaN rows in input order.  The fast path
(`n < len(df)`) selects from `dropped` with a stable mergesort argsort and
appends `nan_index` as filler, truncating to `n`
(`concat([dropped.iloc[inds], nan_index]).iloc[:n]`); the slow path
(`n ≥ len(df)`) is `sort_values(ascending=False, na_position="last")
.head(n)`, i.e. every row.  The slow path sorts with numpy quicksort,
which guarantees no tie order; this model realizes that unspecified order
as the same stable one, and no theorem below relies on tie order in the
slow regime. -/
def nlargestMovers (df : Table) (n : Nat) : List Mover :=
  (List.insertionSort moverDesc (moverDropped df) ++ moverNanIndex df).take n

/-- `df.nsmallest(n, change-col)`: ascending, NaN rows still last. -/
def nsmallestMovers (df : Table) (n : Nat) : List Mover :=
  (List.insertionSort moverAsc (moverDropped df) ++ moverNanIndex df).take n

/-- `top_movers` (data_analysis.py lines 66-84): two empty frames for an
empty DataFrame, otherwise `nlargest`/`nsmallest` on the change column. -/
def top_movers (df : Table) (n : Nat) : List Mover × List Mover :=
  if df = [] then ([], [])
  else (nlargestMovers df n, nsmallestMovers df n)

/-- The gainers ordering stated by the claim: changes non-increasing, with
the NaN filler rows (if any) after every numeric change. -/
def gainOrd (a b : Mover) : Prop :=
  b.change = none ∨ ∃ x y, a.change = some x ∧ b.change = some y ∧ y ≤ x

/-- The losers ordering stated by the claim: changes non-decreasing, NaN
rows last. -/
def loseOrd (a b : Mover) : Prop :=
  b.change = none ∨ ∃ x y, a.change = some x ∧ b.change = some y ∧ x ≤ y

theorem top_movers_eq (df : Table) (n : Nat) :
    top_movers df n = (nlargestMovers df n, nsmallestMovers df n) := by
  by_cases h : df = []
  · subst h
    simp [top_movers, nlargestMovers, nsmallestMovers, moverDropped,
      moverNanIndex]
  · simp [top_movers, h]

theorem moverDropped_length_add (df : Table) :
    (moverDropped df).length + (moverNanIndex df).length = df.length := by
  have h := (List.filter_append_perm (fun m => m.change.isSome)
    (df.map moverOfRow)).length_eq
  simpa [moverDropped, moverNanIndex] using h

theorem mem_moverDropped_change {df : Table} {m : Mover}
    (h : m ∈ moverDropped df) : ∃ x, m.change = some x := by
  rw [moverDropped] at h
  have hb := @List.of_mem_filter Mover (fun m => m.change.isSome) m
    (df.map moverOfRow) h
  exact Option.isSome_iff_exists.mp hb

theorem mem_moverNanIndex_change {df : Table} {m : Mover}
    (h : m ∈ moverNanIndex df) : m.change = none := by
  rw [moverNanIndex] at h
  have hb := List.of_mem_filter h
  cases hc : m.change with
  | none => rfl
  | some x => rw [hc] at hb; simp at hb

theorem filter_orderedInsert {α : Type} (r : α → α → Prop) [DecidableRel r]
    (p : α → Bool) (a : α) (l : List α)
    (hpa : ∀ y, ¬r a y → p a = true → p y = false) :
    (List.orderedInsert r a l).filter p =
      if p a then a :: l.filter p else l.filter p := by
  induction l with
  | nil => by_cases h : p a <;> simp [List.orderedInsert, List.filter, h]
  | cons y t ih =>
      by_cases hr : r a y
      · by_cases h : p a <;> simp [List.orderedInsert, hr, List.filter_cons, h]
      · by_cases h : p a
        · have hy : p y = false := hpa y hr h
          simp [List.orderedInsert, hr, List.filter_cons, hy, ih, h]
        · simp [List.orderedInsert, hr, List.filter_cons, ih, h]

theorem filter_insertionSort {α : Type} (r : α → α → Prop) [DecidableRel r]
    (p : α → Bool) (l : List α)
    (hp : ∀ a y, ¬r a y → p a = true → p y = false) :
    (List.insertionSort r l).filter p = l.filter p := by
  induction l with
  | nil => rfl
  | cons b t ih =>
      rw [List.insertionSort, filter_orderedInsert r p b _ (hp b)]
      by_cases h : p b <;> simp [List.filter_cons, h, ih]

theorem filter_take_append {α : Type} (p : α → Bool) (l : List α) (n : Nat) :
    ∃ t, l.filter p = (l.take n).filter p ++ t := by
  refine ⟨(l.drop n).filter p, ?_⟩
  conv_lhs => rw [← List.take_append_drop n l]
  rw [List.filter_append]

theorem pairwise_sorted_nan_append {df : Table} {r : Mover → Mover → Prop}
    [DecidableRel r] [IsTotal Mover r] [IsTrans Mover r]
    {S : Mover → Mover → Prop}
    (hS : ∀ a b : Mover, (∃ x, a.change = some x) →
      (∃ y, b.change = some y) → r a b → S a b)
    (hnan : ∀ a b : Mover, b.change = none → S a b) (n : Nat) :
    ((List.insertionSort r (moverDropped df) ++ moverNanIndex df).take n).Pairwise
      S := by
  refine List.Pairwise.sublist (List.take_sublist _ _)
    (List.pairwise_append.mpr ⟨?_, ?_, ?_⟩)
  · refine List.Pairwise.imp_of_mem ?_
      (List.sorted_insertionSort r (moverDropped df))
    intro a b ha hb hr
    exact hS a b
      (mem_moverDropped_change ((List.mem_insertionSort r).mp ha))
      (mem_moverDropped_change ((List.mem_insertionSort r).mp hb)) hr
  · exact List.pairwise_of_forall_mem_list fun a _ b hb =>
      hnan a b (mem_moverNanIndex_change hb)
  · exact fun a _ b hb => hnan a b (mem_moverNanIndex_change hb)

theorem filter_keyEq_select {df : Table} {r : Mover → Mover → Prop}
    [DecidableRel r] (hkey : ∀ a y : Mover, ¬r a y → chKey a ≠ chKey y)
    (n : Nat) (q : ℚ) :
    ∃ t, (df.map moverOfRow).filter (fun m => decide (m.change = some q)) =
      ((List.insertionSort r (moverDropped df) ++ moverNanIndex df).take
        n).filter (fun m => decide (m.change = some q)) ++ t := by
  set p : Mover → Bool := fun m => decide (m.change = some q) with hp
  have hA : (moverDropped df).filter p = (df.map moverOfRow).filter p := by
    rw [moverDropped, List.filter_filter]
    refine List.filter_congr fun m _ => ?_
    cases hc : m.change <;> simp [hp, hc]
  have hB : (List.insertionSort r (moverDropped df)).filter p =
      (moverDropped df).filter p := by
    refine filter_insertionSort r p (moverDropped df) ?_
    intro a y hr ha
    simp only [hp, decide_eq_true_eq] at ha
    simp only [hp, decide_eq_false_iff_not]
    intro hy
    exact hkey a y hr (by rw [chKey, chKey, ha, hy])
  have hC : ((moverNanIndex df).take (n -
      (List.insertionSort r (moverDropped df)).length)).filter p = [] := by
    refine List.filter_eq_nil_iff.mpr ?_
    intro a ha
    have hnone := mem_moverNanIndex_change (List.take_subset _ _ ha)
    simp [hp, hnone]
  obtain ⟨t, ht⟩ := filter_take_append p
    (List.insertionSort r (moverDropped df)) n
  refine ⟨t, ?_⟩
  rw [List.take_append_eq_append_take, List.filter_append, hC,
    List.append_nil, ← hA, ← hB, ht]

/-- C4: for every table with at least `n` records, `top_movers` returns a
gainers and a losers sequence each of length exactly `n`; gainers are
non-increasing and losers non-decreasing in change, NaN filler rows coming
after every numeric change; in the selection regime `n < len(df)` — the
only one in which records compete for a slot, and where pandas runs the
stable mergesort path — ties are broken by input order: for every change
value, the selected rows with that value are the first such rows of the
table, in order; and a table with fewer than `n` records yields all its
records in both sequences. -/
theorem top_movers_spec (df : Table) (n : Nat) :
    (n ≤ df.length → (top_movers df n).1.length = n ∧
      (top_movers df n).2.length = n) ∧
    List.Pairwise gainOrd (top_movers df n).1 ∧
    List.Pairwise loseOrd (top_movers df n).2 ∧
    (df.length < n → (top_movers df n).1.Perm (df.map moverOfRow) ∧
      (top_movers df n).2.Perm (df.map moverOfRow)) ∧
    (n < df.length → ∀ q : ℚ,
      (∃ t, (df.map moverOfRow).filter (fun m => decide (m.change = some q)) =
        (top_movers df n).1.filter (fun m => decide (m.change = some q)) ++ t) ∧
      (∃ t, (df.map moverOfRow).filter (fun m => decide (m.change = some q)) =
        (top_movers df n).2.filter (fun m => decide (m.change = some q)) ++ t)) := by
  have hsd : (List.insertionSort moverDesc (moverDropped df)).length =
      (moverDropped df).length := (List.perm_insertionSort _ _).length_eq
  have hsa : (List.insertionSort moverAsc (moverDropped df)).length =
      (moverDropped df).length := (List.perm_insertionSort _ _).length_eq
  have htotal := moverDropped_length_add df
  rw [top_movers_eq]
  refine ⟨?_, ?_, ?_, ?_, ?_⟩
  · intro hn
    constructor
    · simp only [nlargestMovers, List.length_take, List.length_append, hsd]
      omega
    · simp only [nsmallestMovers, List.length_take, List.length_append, hsa]
      omega
  · refine pairwise_sorted_nan_append ?_ ?_ n
    · rintro a b ⟨x, hx⟩ ⟨y, hy⟩ hr
      refine Or.inr ⟨x, y, hx, hy, ?_⟩
      simpa [moverDesc, chKey, hx, hy] using hr
    · exact fun a b hb => Or.inl hb
  · refine pairwise_sorted_nan_append ?_ ?_ n
    · rintro a b ⟨x, hx⟩ ⟨y, hy⟩ hr
      refine Or.inr ⟨x, y, hx, hy, ?_⟩
      simpa [moverAsc, chKey, hx, hy] using hr
    · exact fun a b hb => Or.inl hb
  · intro hlt
    have hall : ∀ (r : Mover → Mover → Prop) [DecidableRel r],
        ((List.insertionSort r (moverDropped df) ++ moverNanIndex df).take
          n).Perm (df.map moverOfRow) := by
      intro r _
      have hlen : (List.insertionSort r (moverDropped df) ++
          moverNanIndex df).length ≤ n := by
        rw [List.length_append, (List.perm_insertionSort r _).length_eq]
        omega
      rw [List.take_of_length_le hlen]
      exact ((List.perm_insertionSort r _).append_right _).trans
        (List.filter_append_perm _ _)
    exact ⟨hall moverDesc, hall moverAsc⟩
  · intro _ q
    constructor
    · refine filter_keyEq_select ?_ n q
      intro a y hr
      have : chKey a < chKey y := lt_of_not_le hr
      exact ne_of_lt this
    · refine filter_keyEq_select ?_ n q
      intro a y hr
      have : chKey y < chKey a := lt_of_not_le hr
      exact ne_of_gt this

/-- Three rows, one with a NaN change, for the `top_movers` witness. -/
def dfMovers : Table :=
  [{ name := some (.jstr "Bitcoin"),
     price_change_percentage_24h := some 5 : Row },
   { name := some (.jstr "Ether") : Row },
   { name := some (.jstr "Solana"),
     price_change_percentage_24h := some 1 : Row }]

/-- Witness for C4 on a concrete three-row table (one NaN change): at
`n = 2` the lengths are exactly 2, both outputs are ordered, ties at change
5 are served in input order, and at `n = 5` every record is returned. -/
theorem top_movers_spec_witness :
    (top_movers dfMovers 2).1.length = 2 ∧
      (top_movers dfMovers 2).2.length = 2 ∧
      List.Pairwise gainOrd (top_movers dfMovers 2).1 ∧
      List.Pairwise loseOrd (top_movers dfMovers 2).2 ∧
      (∃ t, (dfMovers.map moverOfRow).filter
          (fun m => decide (m.change = some 5)) =
        (top_movers dfMovers 2).1.filter
          (fun m => decide (m.change = some 5)) ++ t) ∧
      (top_movers dfMovers 5).1.Perm (dfMovers.map moverOfRow) := by
  obtain ⟨hlen, hg, hl, -, hstab⟩ := top_movers_spec dfMovers 2
  obtain ⟨-, -, -, hall, -⟩ := top_movers_spec dfMovers 5
  obtain ⟨h1, h2⟩ := hlen (by decide)
  exact ⟨h1, h2, hg, hl, (hstab (by decide) 5).1, (hall (by decide)).1⟩

/-! ### `correlation_matrix`

`df[[four numeric columns]].corr()` computes pairwise Pearson coefficients:
for each pair of columns it keeps the rows where both cells are non-NaN,
takes the sums of squared deviations `sx`, `sy` and of cross deviations
`sxy` over those rows, and returns `sxy / sqrt(sx * sy)` when the divisor is
nonzero and NaN otherwise (pandas `nancorr`).  The sums are exact rationals
here; only the final value needs the real square root, so entries live in
`Option ℝ` with `none` as NaN. -/

/-- The four numeric columns, in the order listed by `correlation_matrix`. -/
def colQ (i : Fin 4) (r : Row) : Option ℚ :=
  if i.val = 0 then r.current_price
  else if i.val = 1 then r.price_change_percentage_24h
  else if i.val = 2 then r.market_cap
  else r.total_volume

/-- Non-NaN values of one column, in row order. -/
def colVals (df : Table) (i : Fin 4) : List ℚ :=
  df.filterMap (colQ i)

/-- Rows where both columns are non-NaN (pairwise-complete observations). -/
def pairRows (df : Table) (i j : Fin 4) : List (ℚ × ℚ) :=
  df.filterMap fun r =>
    match colQ i r, colQ j r with
    | some x, some y => some (x, y)
    | _, _ => none

/-- Column mean (0 on the empty list, where it is never used). -/
def meanOf (l : List ℚ) : ℚ := l.sum / l.length

/-- Sum of squared deviations from the mean. -/
def ssd (l : List ℚ) : ℚ :=
  (l.map fun x => (x - meanOf l) * (x - meanOf l)).sum

/-- Sum of cross deviations from the two means. -/
def sdxy (ps : List (ℚ × ℚ)) : ℚ :=
  (ps.map fun p => (p.1 - meanOf (ps.map Prod.fst)) *
    (p.2 - meanOf (ps.map Prod.snd))).sum

/-- One Pearson coefficient; `none` is pandas' NaN for a zero divisor. -/
noncomputable def corrEntry (df : Table) (i j : Fin 4) : Option ℝ :=
  let ps := pairRows df i j
  let sx := ssd (ps.map Prod.fst)
  let sy := ssd (ps.map Prod.snd)
  if sx * sy = 0 then none
  else some ((sdxy ps : ℝ) / Real.sqrt ((sx : ℝ) * (sy : ℝ)))

/-- `correlation_matrix` (data_analysis.py lines 87-102): the empty frame
(`none`) for an empty DataFrame, otherwise the 4×4 matrix of pairwise
Pearson coefficients. -/
noncomputable def correlation_matrix (df : Table) :
    Option (Fin 4 → Fin 4 → Option ℝ) :=
  if df = [] then none else some fun i j => corrEntry df i j

theorem pairRows_swap (df : Table) (i j : Fin 4) :
    pairRows df j i = (pairRows df i j).map Prod.swap := by
  induction df with
  | nil => rfl
  | cons r t ih =>
      cases hx : colQ i r <;> cases hy : colQ j r <;>
        simp [pairRows, hx, hy] at ih ⊢ <;> exact ih

theorem pairRows_diag (df : Table) (i : Fin 4) :
    pairRows df i i = (colVals df i).map fun x => (x, x) := by
  induction df with
  | nil => rfl
  | cons r t ih =>
      cases hx : colQ i r <;> simp [pairRows, colVals, hx] at ih ⊢ <;>
        exact ih

theorem corrEntry_symm (df : Table) (i j : Fin 4) :
    corrEntry df i j = corrEntry df j i := by
  have hswap := pairRows_swap df i j
  have hfst : (pairRows df j i).map Prod.fst = (pairRows df i j).map Prod.snd := by
    rw [hswap, List.map_map]; rfl
  have hsnd : (pairRows df j i).map Prod.snd = (pairRows df i j).map Prod.fst := by
    rw [hswap, List.map_map]; rfl
  have hxy : sdxy (pairRows df j i) = sdxy (pairRows df i j) := by
    rw [sdxy, sdxy, hfst, hsnd, hswap, List.map_map]
    refine congrArg List.sum (List.map_congr_left fun p _ => ?_)
    simp only [Function.comp_apply, Prod.fst_swap, Prod.snd_swap]
    exact mul_comm _ _
  simp only [corrEntry, hfst, hsnd, hxy]
  by_cases h : ssd ((pairRows df i j).map Prod.fst) *
      ssd ((pairRows df i j).map Prod.snd) = 0
  · rw [if_pos h, if_pos (by rw [mul_comm]; exact h)]
  · rw [if_neg h, if_neg (by rw [mul_comm]; exact h), mul_comm]

theorem list_sum_nonneg_all_zero :
    ∀ l : List ℚ, (∀ x ∈ l, 0 ≤ x) → l.sum = 0 → ∀ x ∈ l, x = 0
  | [], _, _, x, hx => absurd hx (List.not_mem_nil x)
  | a :: t, hpos, hsum, x, hx => by
      have hts : 0 ≤ t.sum :=
        List.sum_nonneg fun y hy => hpos y (List.mem_cons_of_mem _ hy)
      have ha : 0 ≤ a := hpos a (List.mem_cons_self a t)
      have hsum' : a + t.sum = 0 := by simpa using hsum
      have ha0 : a = 0 := by linarith
      have ht0 : t.sum = 0 := by linarith
      rcases List.mem_cons.mp hx with rfl | hx
      · exact ha0
      · exact list_sum_nonneg_all_zero t
          (fun y hy => hpos y (List.mem_cons_of_mem _ hy)) ht0 x hx

theorem ssd_eq_zero_all_mean {l : List ℚ} (h : ssd l = 0) :
    ∀ x ∈ l, x = meanOf l := by
  intro x hx
  have hterm : (x - meanOf l) * (x - meanOf l) = 0 := by
    refine list_sum_nonneg_all_zero _ ?_ h _ (List.mem_map_of_mem _ hx)
    intro y hy
    obtain ⟨z, -, rfl⟩ := List.mem_map.mp hy
    exact mul_self_nonneg _
  have := mul_self_eq_zero.mp hterm
  linarith [sub_eq_zero.mp this]

theorem meanOf_const {l : List ℚ} {c : ℚ} (hne : l ≠ [])
    (h : ∀ x ∈ l, x = c) : meanOf l = c := by
  have hsum : l.sum = l.length • c := List.sum_eq_card_nsmul l c h
  have hlen : (l.length : ℚ) ≠ 0 := by
    simpa using List.length_pos.mpr hne |>.ne'
  rw [meanOf, hsum, nsmul_eq_mul]
  exact mul_div_cancel_left₀ c hlen

theorem ssd_const {l : List ℚ} {c : ℚ} (h : ∀ x ∈ l, x = c) : ssd l = 0 := by
  rcases eq_or_ne l [] with rfl | hne
  · rfl
  · have hmean := meanOf_const hne h
    refine List.sum_eq_zero ?_
    intro y hy
    obtain ⟨z, hz, rfl⟩ := List.mem_map.mp hy
    rw [h z hz, hmean, sub_self, mul_zero]

theorem pairRows_fst_mem (df : Table) (i j : Fin 4) :
    ∀ x ∈ (pairRows df i j).map Prod.fst, x ∈ colVals df i := by
  intro x hx
  obtain ⟨p, hp, rfl⟩ := List.mem_map.mp hx
  obtain ⟨r, hr, hmatch⟩ := List.mem_filterMap.mp hp
  cases hxi : colQ i r <;> cases hyj : colQ j r <;>
    rw [hxi, hyj] at hmatch <;> simp at hmatch
  obtain ⟨rfl, -⟩ := hmatch
  exact List.mem_filterMap.mpr ⟨r, hr, hxi⟩

theorem ssd_nonneg (l : List ℚ) : 0 ≤ ssd l := by
  refine List.sum_nonneg ?_
  intro y hy
  obtain ⟨z, -, rfl⟩ := List.mem_map.mp hy
  exact mul_self_nonneg _

theorem corrEntry_diag_one (df : Table) (i : Fin 4)
    (h : ssd (colVals df i) ≠ 0) : corrEntry df i i = some 1 := by
  have hdiag := pairRows_diag df i
  have hfst : (pairRows df i i).map Prod.fst = colVals df i := by
    rw [hdiag, List.map_map]
    exact ((colVals df i).map_congr_left fun x _ => rfl).trans
      (List.map_id _)
  have hsnd : (pairRows df i i).map Prod.snd = colVals df i := by
    rw [hdiag, List.map_map]
    exact ((colVals df i).map_congr_left fun x _ => rfl).trans
      (List.map_id _)
  have hxy : sdxy (pairRows df i i) = ssd (colVals df i) := by
    rw [sdxy, ssd, hfst, hsnd, hdiag, List.map_map]
    rfl
  have hpos : (0 : ℝ) ≤ (ssd (colVals df i) : ℝ) := by
    exact_mod_cast ssd_nonneg _
  have hne : ((ssd (colVals df i) : ℝ)) ≠ 0 := by exact_mod_cast h
  rw [corrEntry]
  simp only [hfst, hsnd, hxy]
  rw [if_neg (mul_ne_zero h h), Real.sqrt_mul_self hpos, div_self hne]

theorem corrEntry_zero_var (df : Table) (i j : Fin 4)
    (h : ssd (colVals df i) = 0) : corrEntry df i j = none := by
  have hconst : ∀ x ∈ (pairRows df i j).map Prod.fst,
      x = meanOf (colVals df i) := fun x hx =>
    ssd_eq_zero_all_mean h x (pairRows_fst_mem df i j x hx)
  have hsx : ssd ((pairRows df i j).map Prod.fst) = 0 := ssd_const hconst
  simp [corrEntry, hsx]

/-- C7: for every nonempty table, `correlation_matrix` returns a matrix that
is symmetric over the four numeric fields; its diagonal entry is exactly 1
for every field with nonzero variance (nonzero sum of squared deviations of
its non-NaN values); and a field with zero variance yields NaN (`none`) in
every off-diagonal entry of its row and its column. -/
theorem correlation_matrix_spec (df : Table) (hne : df ≠ []) :
    ∃ M, correlation_matrix df = some M ∧
      (∀ i j, M i j = M j i) ∧
      (∀ i, ssd (colVals df i) ≠ 0 → M i i = some 1) ∧
      (∀ i j, ssd (colVals df i) = 0 → j ≠ i →
        M i j = none ∧ M j i = none) := by
  refine ⟨fun i j => corrEntry df i j, by rw [correlation_matrix, if_neg hne],
    ?_, ?_, ?_⟩
  · exact fun i j => corrEntry_symm df i j
  · exact fun i hi => corrEntry_diag_one df i hi
  · intro i j hvar _
    exact ⟨corrEntry_zero_var df i j hvar,
      (corrEntry_symm df j i).trans (corrEntry_zero_var df i j hvar)⟩

/-- Two-row table whose price column varies and whose change column is
constant, for the correlation witness. -/
def dfCorr : Table :=
  [{ current_price := some 1, price_change_percentage_24h := some 5 : Row },
   { current_price := some 2, price_change_percentage_24h := some 5 : Row }]

/-- Witness for C7: on `dfCorr` the price diagonal is 1 and the
constant-change row/column entries are NaN. -/
theorem correlation_matrix_spec_witness :
    ∃ M, correlation_matrix dfCorr = some M ∧
      M 0 0 = some 1 ∧ M 0 1 = none ∧ M 1 0 = none := by
  obtain ⟨M, hM, hsym, hdiag, hzv⟩ :=
    correlation_matrix_spec dfCorr (by decide)
  have hvar0 : ssd (colVals dfCorr 0) ≠ 0 := by
    with_unfolding_all decide
  have hvar1 : ssd (colVals dfCorr 1) = 0 := by
    with_unfolding_all decide
  obtain ⟨h10, h01⟩ := hzv 1 0 hvar1 (by decide)
  exact ⟨M, hM, hdiag 0 hvar0, h01, h10⟩

/-! ### C8: the analysis operations are pure

Each operation is embedded statement-by-statement: no statement of
`compute_summary`, `top_movers` or `correlation_matrix` assigns into the
caller's DataFrame (they only read columns and build new frames), so the
state-passing form of each returns the input table unchanged next to the
result computed from it. -/

/-- `compute_summary` with the caller's table threaded through. -/
def compute_summary_st (df : Table) : Table × Option Summary :=
  (df, compute_summary df)

/-- `top_movers` with the caller's table threaded through. -/
def top_movers_st (df : Table) (n : Nat) :
    Table × (List Mover × List Mover) :=
  (df, top_movers df n)

/-- `correlation_matrix` with the caller's table threaded through. -/
noncomputable def correlation_matrix_st (df : Table) :
    Table × Option (Fin 4 → Fin 4 → Option ℝ) :=
  (df, correlation_matrix df)

/-- C8: the three analysis operations are pure functions of the input
table: two calls on equal tables return equal results, and every call
leaves its input table unchanged. -/
theorem analysis_functions_pure (df df' : Table) (n : Nat) (h : df = df') :
    (compute_summary_st df).2 = (compute_summary_st df').2 ∧
      (top_movers_st df n).2 = (top_movers_st df' n).2 ∧
      (correlation_matrix_st df).2 = (correlation_matrix_st df').2 ∧
      (compute_summary_st df).1 = df ∧
      (top_movers_st df n).1 = df ∧
      (correlation_matrix_st df).1 = df := by
  subst h
  exact ⟨rfl, rfl, rfl, rfl, rfl, rfl⟩

/-- Witness for C8 on a concrete table. -/
theorem analysis_functions_pure_witness :
    (compute_summary_st dfCorr).2 = (compute_summary_st dfCorr).2 ∧
      (top_movers_st dfCorr 3).2 = (top_movers_st dfCorr 3).2 ∧
      (correlation_matrix_st dfCorr).2 = (correlation_matrix_st dfCorr).2 ∧
      (compute_summary_st dfCorr).1 = dfCorr ∧
      (top_movers_st dfCorr 3).1 = dfCorr ∧
      (correlation_matrix_st dfCorr).1 = dfCorr :=
  analysis_functions_pure dfCorr dfCorr 3 rfl

end CryptoPulse
